import Mathlib

/-!
Shallow embedding of the emotion-aware tutor's core signal pipeline:
FER-vector normalization and smoothing (`src/lib/fer` utilities),
the reward function and its presets, the `MicStreamer` chunk
deduplication machine, linear-interpolation resampling, WAV encoding,
face/voice fusion, and the LinUCB contextual bandit from the shipped
self-check.  JavaScript `number` arithmetic is modelled exactly over `ℚ`;
where a routine can receive `NaN`/`Infinity` the input is modelled by an
explicit `JsNum` sum type mirroring the `Number.isNaN`/`Number.isFinite`
guards in the source.

The file is organised as definitions first (the embedding), then the
lemmas and theorems about them.
-/

namespace EmotionTutor

/- ===================== Definitions ===================== -/

/-- A JavaScript `number` as it can arrive at `clamp01`: `NaN`, an
infinity, or a finite value (modelled exactly as a rational). -/
inductive JsNum where
  | nan : JsNum
  | posInf : JsNum
  | negInf : JsNum
  | num : ℚ → JsNum
deriving DecidableEq

/-- `clamp01` from the FER utilities: `NaN` and non-finite inputs map to
`0`; finite inputs are clamped to `[0, 1]` via `Math.max(0, Math.min(1, x))`. -/
def clamp01 : JsNum → ℚ
  | .num x => max 0 (min 1 x)
  | _ => 0

/-- The canonical 3-class emotion vector `{pos, neu, fru}` with finite
components. -/
structure FerVector where
  pos : ℚ
  neu : ℚ
  fru : ℚ
deriving DecidableEq

/-- A raw 3-class vector as received from a classifier: each component a
JavaScript number that may be `NaN` or infinite. -/
structure RawFerVector where
  pos : JsNum
  neu : JsNum
  fru : JsNum
deriving DecidableEq

/-- Embed a finite vector as a raw one (the identity coercion that happens
when a computed object is passed back into `normalizeFer`). -/
def FerVector.raw (v : FerVector) : RawFerVector :=
  ⟨.num v.pos, .num v.neu, .num v.fru⟩

/-- `normalizeFer`: clamp each component to `[0,1]` (`NaN`/infinite → 0);
if the clamped sum is `≤ 0` return the uniform vector `{1/3,1/3,1/3}`,
otherwise divide each clamped component by the sum. -/
def normalizeFer (vec : RawFerVector) : FerVector :=
  let pos := clamp01 vec.pos
  let neu := clamp01 vec.neu
  let fru := clamp01 vec.fru
  let sum := pos + neu + fru
  if sum ≤ 0 then ⟨1/3, 1/3, 1/3⟩
  else ⟨pos / sum, neu / sum, fru / sum⟩

/-- `ema prev current alpha`: per-component
`alpha*prev + (1-alpha)*current`, then `normalizeFer`.  The source's
default is `alpha = 0.7`. -/
def ema (prev current : FerVector) (alpha : ℚ) : FerVector :=
  normalizeFer (FerVector.raw
    ⟨alpha * prev.pos + (1 - alpha) * current.pos,
     alpha * prev.neu + (1 - alpha) * current.neu,
     alpha * prev.fru + (1 - alpha) * current.fru⟩)

/-- The clamped pre-normalization sum of a raw vector. -/
def clampedSum (vec : RawFerVector) : ℚ :=
  clamp01 vec.pos + clamp01 vec.neu + clamp01 vec.fru

/-- A vector is valid when its components are non-negative and sum to 1. -/
def FerVector.valid (v : FerVector) : Prop :=
  0 ≤ v.pos ∧ 0 ≤ v.neu ∧ 0 ≤ v.fru ∧ v.pos + v.neu + v.fru = 1

instance (v : FerVector) : Decidable v.valid := by
  unfold FerVector.valid; infer_instance

namespace Reward

/-- `clamp01` from `reward.ts` (finite inputs only, no NaN guard). -/
def clamp01 (x : ℚ) : ℚ := max 0 (min 1 x)

/-- `clampNeg1to1` from `reward.ts`: clamp to `[-1, 1]`. -/
def clampNeg1to1 (x : ℚ) : ℚ := max (-1) (min 1 x)

/-- The reward weight triple `{alpha, beta, gamma}` held by the reward
weights store. -/
structure RewardWeights where
  alpha : ℚ
  beta : ℚ
  gamma : ℚ
deriving DecidableEq

/-- The three named preset configurations. -/
structure Presets where
  baseline : RewardWeights
  aggressive : RewardWeights
  conservative : RewardWeights

/-- `PRESETS` from the reward weights store:
baseline `{1.0, 0.3, 0.5}`, aggressive `{1.0, 0.5, 0.7}`,
conservative `{1.0, 0.2, 0.3}`. -/
def PRESETS : Presets :=
  ⟨⟨1, 3/10, 1/2⟩, ⟨1, 1/2, 7/10⟩, ⟨1, 1/5, 3/10⟩⟩

/-- `computeReward`: `alpha*correct + beta*clampNeg1to1(engagement) +
gamma*clamp01(deltaM)`, with the weights read from the store state
(modelled as an explicit argument). -/
def computeReward (w : RewardWeights) (correct engagement deltaM : ℚ) : ℚ :=
  w.alpha * correct + w.beta * clampNeg1to1 engagement + w.gamma * clamp01 deltaM

/-- `computeMasteryGain`: the mastery delta clamped to `[0, 1]`. -/
def computeMasteryGain (prevMastery currentMastery : ℚ) : ℚ :=
  clamp01 (currentMastery - prevMastery)

end Reward

/- MicStreamer chunk machine (`audioCapture.ts`). -/

/-- Content signature of a resampled window: RMS, peak absolute value,
arithmetic mean. -/
structure ChunkSignature where
  rms : ℚ
  peak : ℚ
  mean : ℚ
deriving DecidableEq

/-- The duplicate-tracking state a `MicStreamer` carries between
completed windows. -/
structure MicState where
  chunkSeq : ℕ
  lastSignature : Option ChunkSignature
  consecutiveDuplicates : ℕ
deriving DecidableEq

/-- The canonical target sample rate (`targetSr = 16000`). -/
def targetSr : ℕ := 16000

/-- Force a send after this many consecutive duplicate skips. -/
def maxConsecutiveDuplicates : ℕ := 5

/-- The per-window metadata record handed to `onChunkMeta` (the
wall-clock `timestamp` field is omitted from the model). -/
structure MicChunkMeta where
  seq : ℕ
  sampleCount : ℕ
  durationSec : ℚ
  approxBytes : ℕ
  rms : ℚ
  peak : ℚ
  mean : ℚ
  duplicate : Bool
  sent : Bool
deriving DecidableEq

/-- `buildMeta` plus the `duplicate`/`sent` flags the caller spreads in. -/
def buildMeta (seq sampleCount : ℕ) (signature : ChunkSignature)
    (duplicate sent : Bool) : MicChunkMeta :=
  ⟨seq, sampleCount, (sampleCount : ℚ) / targetSr, 44 + sampleCount * 4,
   signature.rms, signature.peak, signature.mean, duplicate, sent⟩

/-- `isDuplicate`: no previous signature means not a duplicate; otherwise
compare component-wise absolute differences against the threshold (10×
relaxed when both chunks are quiet, i.e. RMS < 0.01), and never mark a
quiet+quiet pair as duplicate. -/
def isDuplicate (last : Option ChunkSignature) (signature : ChunkSignature)
    (duplicateThreshold : ℚ) : Bool :=
  match last with
  | none => false
  | some lastSig =>
    let isQuiet : Bool :=
      decide (signature.rms < 1/100) && decide (lastSig.rms < 1/100)
    let threshold :=
      if isQuiet then duplicateThreshold * 10 else duplicateThreshold
    let diffRms := |signature.rms - lastSig.rms|
    let diffPeak := |signature.peak - lastSig.peak|
    let diffMean := |signature.mean - lastSig.mean|
    decide (diffRms ≤ threshold) && decide (diffPeak ≤ threshold) &&
      decide (diffMean ≤ threshold) && !isQuiet

/-- Observable outcome of processing one completed window: the metadata
record passed to `onChunkMeta`, whether that callback fires, and whether
`onChunk` is invoked (the chunk dispatched). -/
structure ChunkOutcome where
  meta : MicChunkMeta
  metaEmitted : Bool
  dispatched : Bool
deriving DecidableEq

/-- One iteration of the chunk-processing loop in `MicStreamer.start` for
a completed (already resampled) window with the given signature and
sample count: sequence increment, the silence rule, the duplicate rule,
and the anti-starvation force-send rule. -/
def processChunk (duplicateThreshold : ℚ) (st : MicState)
    (signature : ChunkSignature) (sampleCount : ℕ) :
    MicState × ChunkOutcome :=
  let seq := st.chunkSeq + 1
  if signature.rms = 0 ∧ signature.peak = 0 ∧ signature.mean = 0 then
    -- completely silent chunk: skip upload, still update the signature
    (⟨seq, some signature, st.consecutiveDuplicates⟩,
     ⟨buildMeta seq sampleCount signature true false, true, false⟩)
  else
    let isDup := isDuplicate st.lastSignature signature duplicateThreshold
    let forceSend :=
      decide (maxConsecutiveDuplicates ≤ st.consecutiveDuplicates)
    if isDup && !forceSend then
      (⟨seq, some signature, st.consecutiveDuplicates + 1⟩,
       ⟨buildMeta seq sampleCount signature true false, true, false⟩)
    else
      (⟨seq, some signature, 0⟩,
       ⟨buildMeta seq sampleCount signature (isDup && forceSend) true,
        true, true⟩)

/-- JavaScript `Math.round`: round half toward positive infinity. -/
def jsRound (q : ℚ) : ℤ := ⌊q + 1/2⌋

/-- `resample input fromSr toSr` from `MicStreamer`: identical rates
return the input unchanged; otherwise linear-interpolation resampling
with the upper neighbour index clamped to the last input index.
(`ratio = toSr / fromSr` is written inline.) -/
def resample (input : List ℚ) (fromSr toSr : ℚ) : List ℚ :=
  if fromSr = toSr then input
  else
    let outputLength := (jsRound ((input.length : ℚ) * (toSr / fromSr))).toNat
    (List.range outputLength).map (fun (i : ℕ) =>
      let srcIndex : ℚ := (i : ℚ) / (toSr / fromSr)
      let srcIndexFloor : ℤ := ⌊srcIndex⌋
      let srcIndexCeil : ℤ := min (srcIndexFloor + 1) ((input.length : ℤ) - 1)
      let t : ℚ := srcIndex - srcIndexFloor
      input.getD srcIndexFloor.toNat 0 * (1 - t) +
        input.getD srcIndexCeil.toNat 0 * t)

/- WAV encoding (`MicStreamer.encodeWavFloat32Mono`).  A byte of the
output buffer is either a concrete value (header bytes, zero fill) or
the `k`-th little-endian byte of the IEEE-754 binary32 encoding of a
sample, kept symbolic since only the layout matters here. -/

/-- One byte of the encoded WAV buffer. -/
inductive WavByte where
  | raw : ℕ → WavByte
  | f32 : ℚ → Fin 4 → WavByte
deriving DecidableEq

/-- `writeString`: one `setUint8` per character, writing the character
code at `offset + i`. -/
def writeString (buffer : List WavByte) (offset : ℕ) (s : String) :
    List WavByte :=
  s.toList.enum.foldl
    (fun buf p => buf.set (offset + p.1) (.raw p.2.toNat)) buffer

/-- `view.setUint32(offset, n, true)`: four little-endian bytes. -/
def setUint32LE (buffer : List WavByte) (offset n : ℕ) : List WavByte :=
  ((((buffer.set offset (.raw (n % 256))).set (offset + 1)
      (.raw (n / 256 % 256))).set (offset + 2)
      (.raw (n / 65536 % 256))).set (offset + 3)
      (.raw (n / 16777216 % 256)))

/-- `view.setUint16(offset, n, true)`: two little-endian bytes. -/
def setUint16LE (buffer : List WavByte) (offset n : ℕ) : List WavByte :=
  (buffer.set offset (.raw (n % 256))).set (offset + 1)
    (.raw (n / 256 % 256))

/-- `view.setFloat32(offset, v, true)`: the four bytes of the binary32
encoding of `v`, little-endian. -/
def setFloat32LE (buffer : List WavByte) (offset : ℕ) (v : ℚ) :
    List WavByte :=
  (((buffer.set offset (.f32 v 0)).set (offset + 1) (.f32 v 1)).set
      (offset + 2) (.f32 v 2)).set (offset + 3) (.f32 v 3)

/-- `encodeWavFloat32Mono samples sampleRate`: a 44-byte RIFF/fmt/data
header (mono, IEEE-float format 3, 32 bits per sample) followed by the
four bytes of each sample, over a zero-initialised buffer of
`44 + 4·numFrames` bytes. -/
def encodeWavFloat32Mono (samples : List ℚ) (sampleRate : ℕ) :
    List WavByte :=
  let numFrames := samples.length
  let b0 := List.replicate (44 + numFrames * 4) (WavByte.raw 0)
  let b1 := writeString b0 0 "RIFF"
  let b2 := setUint32LE b1 4 (36 + numFrames * 4)
  let b3 := writeString b2 8 "WAVE"
  let b4 := writeString b3 12 "fmt "
  let b5 := setUint32LE b4 16 16
  let b6 := setUint16LE b5 20 3
  let b7 := setUint16LE b6 22 1
  let b8 := setUint32LE b7 24 sampleRate
  let b9 := setUint32LE b8 28 (sampleRate * 4)
  let b10 := setUint16LE b9 32 4
  let b11 := setUint16LE b10 34 32
  let b12 := writeString b11 36 "data"
  let b13 := setUint32LE b12 40 (numFrames * 4)
  samples.enum.foldl (fun buf p => setFloat32LE buf (44 + 4 * p.1) p.2) b13

/- Face/voice fusion (`useVoiceEmotion` in `useWebcamFer.ts`). -/

/-- A `/ser` response: voice emotion components and an optional VAD
score (the code reads `res.vad ?? 0`). -/
structure SerResponse where
  pos : ℚ
  neu : ℚ
  fru : ℚ
  vad : Option ℚ
deriving DecidableEq

/-- `smoothSer current newVal alpha`: plain per-component EMA of the
voice vector (no renormalization); the source default is `alpha = 0.7`. -/
def smoothSer (current newVal : FerVector) (alpha : ℚ) : FerVector :=
  ⟨alpha * current.pos + (1 - alpha) * newVal.pos,
   alpha * current.neu + (1 - alpha) * newVal.neu,
   alpha * current.fru + (1 - alpha) * newVal.fru⟩

/-- One fusion cycle of `useVoiceEmotion`: when voice is disabled the
fused output is the face vector and the smoothed-voice EMA state is
untouched; when enabled, the VAD gate (`vad ?? 0 ≥ minVad`) decides
whether the voice EMA advances and whether the fused vector blends the
smoothed voice in with weight `1 - clamp01(lambda)`; the blend is
renormalized with a uniform fallback when the sum is not positive.
Returns `(fused, new smoothedSer state)`. -/
def fuseCycle (enabled : Bool) (face smoothedSerState : FerVector)
    (res : SerResponse) (lambda minVad : ℚ) : FerVector × FerVector :=
  if !enabled then (face, smoothedSerState)
  else
    let useVoice := minVad ≤ res.vad.getD 0
    let smoothedSer' :=
      if useVoice then
        smoothSer smoothedSerState ⟨res.pos, res.neu, res.fru⟩ (7/10)
      else smoothedSerState
    let lam := max 0 (min 1 lambda)
    let fused :=
      if useVoice then
        (⟨lam * face.pos + (1 - lam) * smoothedSer'.pos,
          lam * face.neu + (1 - lam) * smoothedSer'.neu,
          lam * face.fru + (1 - lam) * smoothedSer'.fru⟩ : FerVector)
      else face
    let s := fused.pos + fused.neu + fused.fru
    let norm :=
      if 0 < s then (⟨fused.pos / s, fused.neu / s, fused.fru / s⟩ : FerVector)
      else ⟨1/3, 1/3, 1/3⟩
    (norm, smoothedSer')

/- LinUCB contextual bandit (the shipped self-check implementation in
`linucb.selfcheck.ts`). -/

namespace LinUCB

/-- Per-arm context: `d×d` matrix `A` (list of rows), `d`-vector `b`,
confidence parameter `alpha`. -/
structure Context where
  A : List (List ℚ)
  b : List ℚ
  alpha : ℚ
deriving DecidableEq

/-- The bandit's state: dimension `d`, confidence `alpha`, and the
per-arm context map (insertion-ordered association list modelling the
JS `Map`). -/
structure State where
  d : ℕ
  alpha : ℚ
  contexts : List (String × Context)
deriving DecidableEq

/-- `contexts.get(armId)` on the association-list model of the map. -/
def lookupContext (contexts : List (String × Context)) (armId : String) :
    Option Context :=
  (contexts.find? (fun p => p.1 == armId)).map Prod.snd

/-- `getOrCreateContext`: on first reference to an arm id, store and
return a context with `A = Array(d).fill(null).map(() => Array(d).fill(0))`
(the `d×d` all-zero matrix) and `b = Array(d).fill(0)`; afterwards
return the stored context unchanged. -/
def getOrCreateContext (s : State) (armId : String) : Context × State :=
  match lookupContext s.contexts armId with
  | some c => (c, s)
  | none =>
    let A := List.replicate s.d (List.replicate s.d (0 : ℚ))
    let b := List.replicate s.d (0 : ℚ)
    let c : Context := ⟨A, b, s.alpha⟩
    (c, { s with contexts := s.contexts ++ [(armId, c)] })

/-- Spec-side definition for comparison: the scaled identity matrix
`c · I_d` as a list of rows (the spec's "identity-scaled"
initialization). -/
def scaledIdentity (d : ℕ) (c : ℚ) : List (List ℚ) :=
  (List.range d).map (fun i =>
    (List.range d).map (fun j => if i = j then c else 0))

/-- A feature/bias vector for the `d = 2` case the self-check's
`inverse` supports (it throws for any other dimension). -/
structure Vec2 where
  x : ℚ
  y : ℚ
deriving DecidableEq

/-- A `2×2` matrix `[[a, b], [c, d]]`, field names as destructured by
`inverse`. -/
structure Mat2 where
  a : ℚ
  b : ℚ
  c : ℚ
  d : ℚ
deriving DecidableEq

/-- `dotProduct`. -/
def dotProduct (u v : Vec2) : ℚ := u.x * v.x + u.y * v.y

/-- `matrixVectorMultiply`. -/
def matrixVectorMultiply (m : Mat2) (v : Vec2) : Vec2 :=
  ⟨m.a * v.x + m.b * v.y, m.c * v.x + m.d * v.y⟩

/-- `quadraticForm matrix vector = vector ⬝ (matrix · vector)`. -/
def quadraticForm (m : Mat2) (v : Vec2) : ℚ :=
  dotProduct v (matrixVectorMultiply m v)

/-- `det = a*d - b*c`. -/
def det2 (m : Mat2) : ℚ := m.a * m.d - m.b * m.c

/-- `inverse`: return the identity matrix when `|det| < 1e-10`
(singular), otherwise the 2×2 adjugate formula. -/
def inverse (m : Mat2) : Mat2 :=
  if |det2 m| < 1/10000000000 then ⟨1, 0, 0, 1⟩
  else ⟨m.d / det2 m, -m.b / det2 m, -m.c / det2 m, m.a / det2 m⟩

/-- Per-arm context in the `d = 2` numeric model. -/
structure Context2 where
  A : Mat2
  b : Vec2
  alpha : ℚ
deriving DecidableEq

/-- `update features reward armId`: `A[i][j] += features[i]*features[j]`,
`b[i] += features[i]*reward`. -/
def update2 (ctx : Context2) (features : Vec2) (reward : ℚ) : Context2 :=
  ⟨⟨ctx.A.a + features.x * features.x, ctx.A.b + features.x * features.y,
    ctx.A.c + features.y * features.x, ctx.A.d + features.y * features.y⟩,
   ⟨ctx.b.x + features.x * reward, ctx.b.y + features.y * reward⟩,
   ctx.alpha⟩

/-- The arm-state matrices reachable in a session: the all-zero matrix
at creation (`getOrCreateContext`), then `A += x xᵗ` per `update`. -/
inductive ReachableA : Mat2 → Prop where
  | creation : ReachableA ⟨0, 0, 0, 0⟩
  | step (A : Mat2) (x : Vec2) : ReachableA A →
      ReachableA ⟨A.a + x.x * x.x, A.b + x.x * x.y,
        A.c + x.y * x.x, A.d + x.y * x.y⟩

/-- `selectArm` computes `θ·features + alpha·√(features·A⁻¹·features)`:
the pair of the rational part `θ·features` and the radicand
`features·A⁻¹·features`.  Over JS numbers the result is `NaN` exactly
when the radicand handed to `Math.sqrt` is negative. -/
def selectArmParts (ctx : Context2) (features : Vec2) : ℚ × ℚ :=
  let AInv := inverse ctx.A
  let theta := matrixVectorMultiply AInv ctx.b
  (dotProduct theta features, quadraticForm AInv features)

end LinUCB

/- ===================== Theorems ===================== -/

lemma clamp01_nonneg (x : JsNum) : 0 ≤ clamp01 x := by
  cases x <;> simp [clamp01]

lemma clamp01_le_one (x : JsNum) : clamp01 x ≤ 1 := by
  cases x <;> simp [clamp01]

lemma normalizeFer_valid (vec : RawFerVector) : (normalizeFer vec).valid := by
  unfold normalizeFer FerVector.valid
  set p := clamp01 vec.pos with hp
  set n := clamp01 vec.neu with hn
  set f := clamp01 vec.fru with hf
  have hp0 : 0 ≤ p := clamp01_nonneg _
  have hn0 : 0 ≤ n := clamp01_nonneg _
  have hf0 : 0 ≤ f := clamp01_nonneg _
  by_cases h : p + n + f ≤ 0
  · simp only [h, if_pos]
    norm_num
  · simp only [h, if_neg, if_false]
    push_neg at h
    have hs : p + n + f ≠ 0 := ne_of_gt h
    refine ⟨div_nonneg hp0 h.le, div_nonneg hn0 h.le, div_nonneg hf0 h.le, ?_⟩
    field_simp

lemma normalizeFer_raw_of_valid (v : FerVector) (hv : v.valid) :
    normalizeFer v.raw = v := by
  obtain ⟨hp, hn, hf, hs⟩ := hv
  have hp1 : v.pos ≤ 1 := by linarith
  have hn1 : v.neu ≤ 1 := by linarith
  have hf1 : v.fru ≤ 1 := by linarith
  unfold normalizeFer FerVector.raw
  simp only [clamp01]
  rw [max_eq_right, max_eq_right, max_eq_right,
      min_eq_right hp1, min_eq_right hn1, min_eq_right hf1]
  · rw [hs]
    simp
  · exact le_min (by norm_num) hf
  · exact le_min (by norm_num) hn
  · exact le_min (by norm_num) hp

/-- Claim C2: for every raw input vector, `normalizeFer` returns a vector
whose three components are non-negative and sum to 1 (hence within
`1e-9` of 1), and whenever the clamped component sum is `≤ 0` it returns
exactly the uniform vector `{1/3, 1/3, 1/3}`. -/
theorem normalizeFer_nonneg_sum_one_uniform_fallback (vec : RawFerVector) :
    (0 ≤ (normalizeFer vec).pos ∧ 0 ≤ (normalizeFer vec).neu ∧
      0 ≤ (normalizeFer vec).fru ∧
      |(normalizeFer vec).pos + (normalizeFer vec).neu +
        (normalizeFer vec).fru - 1| ≤ 1 / 1000000000) ∧
    (clampedSum vec ≤ 0 → normalizeFer vec = ⟨1/3, 1/3, 1/3⟩) := by
  obtain ⟨hp, hn, hf, hs⟩ := normalizeFer_valid vec
  constructor
  · refine ⟨hp, hn, hf, ?_⟩
    rw [hs]
    norm_num
  · intro h
    unfold normalizeFer
    unfold clampedSum at h
    simp only [h, if_pos]

/-- Witness for C2 at the concrete raw input `⟨NaN, -2, +∞⟩`, whose
clamped sum is 0. -/
theorem normalizeFer_uniform_fallback_witness :
    clampedSum ⟨.nan, .num (-2), .posInf⟩ ≤ 0 ∧
      normalizeFer ⟨.nan, .num (-2), .posInf⟩ = ⟨1/3, 1/3, 1/3⟩ :=
  ⟨by norm_num [clampedSum, clamp01],
   (normalizeFer_nonneg_sum_one_uniform_fallback ⟨.nan, .num (-2), .posInf⟩).2
     (by norm_num [clampedSum, clamp01])⟩

/-- Claim C3: every valid (non-negative, sum-1) emotion vector `v` is a
fixed point of the EMA-then-renormalize step: `ema v v alpha = v` (exact
equality, hence approximate equality) for every `alpha ∈ [0, 1]`. -/
theorem ema_fixed_point (v : FerVector) (alpha : ℚ)
    (hv : v.valid) (_h0 : 0 ≤ alpha) (_h1 : alpha ≤ 1) :
    ema v v alpha = v := by
  have hnext :
      (⟨alpha * v.pos + (1 - alpha) * v.pos,
        alpha * v.neu + (1 - alpha) * v.neu,
        alpha * v.fru + (1 - alpha) * v.fru⟩ : FerVector) = v := by
    cases v
    simp only [FerVector.mk.injEq]
    refine ⟨by ring, by ring, by ring⟩
  unfold ema
  rw [hnext]
  exact normalizeFer_raw_of_valid v hv

/-- Witness for C3 at `v = {1/2, 1/4, 1/4}`, `alpha = 7/10`. -/
theorem ema_fixed_point_witness :
    ema ⟨1/2, 1/4, 1/4⟩ ⟨1/2, 1/4, 1/4⟩ (7/10) = ⟨1/2, 1/4, 1/4⟩ :=
  ema_fixed_point ⟨1/2, 1/4, 1/4⟩ (7/10) (by norm_num [FerVector.valid])
    (by norm_num) (by norm_num)

/-- Claim C4: the reward is `alpha*correct + beta*(engagement clamped to
[-1,1]) + gamma*(masteryGain clamped to [0,1])`; under the baseline
preset `{1.0, 0.3, 0.5}`, `computeReward 1 0 0 = 1.0` and
`computeReward 0 (-1) 1 = 0.2`; and for non-negative `gamma` the
masteryGain term is never negative. -/
theorem computeReward_formula_baseline_values :
    (∀ (w : Reward.RewardWeights) (correct engagement deltaM : ℚ),
        Reward.computeReward w correct engagement deltaM =
          w.alpha * correct + w.beta * Reward.clampNeg1to1 engagement +
            w.gamma * Reward.clamp01 deltaM) ∧
    Reward.computeReward Reward.PRESETS.baseline 1 0 0 = 1 ∧
    Reward.computeReward Reward.PRESETS.baseline 0 (-1) 1 = 1/5 ∧
    (∀ (w : Reward.RewardWeights) (deltaM : ℚ),
        0 ≤ w.gamma → 0 ≤ w.gamma * Reward.clamp01 deltaM) := by
  refine ⟨fun w correct engagement deltaM => rfl, ?_, ?_, ?_⟩
  · norm_num [Reward.computeReward, Reward.PRESETS, Reward.clampNeg1to1,
      Reward.clamp01]
  · norm_num [Reward.computeReward, Reward.PRESETS, Reward.clampNeg1to1,
      Reward.clamp01]
  · intro w deltaM hg
    exact mul_nonneg hg (le_max_left 0 _)

/-- Witness for C4: the masteryGain-term non-negativity applied at the
baseline preset's `gamma = 0.5` and mastery delta `-3/4`. -/
theorem computeReward_masteryGain_term_witness :
    0 ≤ Reward.PRESETS.baseline.gamma ∧
      0 ≤ Reward.PRESETS.baseline.gamma * Reward.clamp01 (-3/4) :=
  ⟨by norm_num [Reward.PRESETS],
   computeReward_formula_baseline_values.2.2.2 Reward.PRESETS.baseline (-3/4)
     (by norm_num [Reward.PRESETS])⟩

lemma resample_floor_lt (N : ℕ) (r : ℚ) (hr : 0 < r) (i : ℕ)
    (hi : i < (jsRound ((N : ℚ) * r)).toNat) :
    ⌊(i : ℚ) / r⌋ < (N : ℤ) ∧ 0 ≤ ⌊(i : ℚ) / r⌋ ∧ 0 < N := by
  have h1 : (i : ℤ) < jsRound ((N : ℚ) * r) := by
    omega
  have h2 : ((i : ℤ) + 1 : ℚ) ≤ (N : ℚ) * r + 1/2 := by
    have := Int.le_floor.mp (by exact_mod_cast h1 : (i : ℤ) + 1 ≤ ⌊(N : ℚ) * r + 1/2⌋)
    exact_mod_cast this
  have h3 : (i : ℚ) < (N : ℚ) * r := by
    push_cast at h2
    linarith
  have h4 : (i : ℚ) / r < (N : ℚ) := by
    rw [div_lt_iff₀ hr]
    linarith [h3]
  have h5 : ⌊(i : ℚ) / r⌋ < (N : ℤ) := Int.floor_lt.mpr (by exact_mod_cast h4)
  have h6 : 0 ≤ ⌊(i : ℚ) / r⌋ :=
    Int.floor_nonneg.mpr (div_nonneg (by positivity) hr.le)
  exact ⟨h5, h6, by omega⟩

/-- Claim C7: for rates `Sr ≠ St` the resampled output has length
`round(N · St/Sr)`; each output sample `i` is the linear blend of the two
neighbouring source samples around source position `i / (St/Sr)` with the
upper neighbour clamped to the last input index (both indices in
bounds); and for `Sr = St` the input is returned unchanged. -/
theorem resample_length_and_blend (input : List ℚ) (fromSr toSr : ℚ)
    (hf : 0 < fromSr) (ht : 0 < toSr) :
    (fromSr ≠ toSr →
      (resample input fromSr toSr).length =
        (jsRound ((input.length : ℚ) * (toSr / fromSr))).toNat) ∧
    (fromSr ≠ toSr →
      ∀ i : ℕ, i < (resample input fromSr toSr).length →
        ∃ (hfl : (⌊(i : ℚ) / (toSr / fromSr)⌋).toNat < input.length)
          (hcl : (min (⌊(i : ℚ) / (toSr / fromSr)⌋ + 1)
              ((input.length : ℤ) - 1)).toNat < input.length),
          (resample input fromSr toSr).getD i 0 =
            input.get ⟨(⌊(i : ℚ) / (toSr / fromSr)⌋).toNat, hfl⟩ *
                (1 - ((i : ℚ) / (toSr / fromSr) -
                  ⌊(i : ℚ) / (toSr / fromSr)⌋)) +
              input.get ⟨(min (⌊(i : ℚ) / (toSr / fromSr)⌋ + 1)
                  ((input.length : ℤ) - 1)).toNat, hcl⟩ *
                ((i : ℚ) / (toSr / fromSr) - ⌊(i : ℚ) / (toSr / fromSr)⌋)) ∧
    (∀ rate : ℚ, resample input rate rate = input) := by
  have hr : 0 < toSr / fromSr := div_pos ht hf
  have hlen : fromSr ≠ toSr →
      (resample input fromSr toSr).length =
        (jsRound ((input.length : ℚ) * (toSr / fromSr))).toNat := by
    intro hne
    rw [resample, if_neg hne]
    exact (List.length_map _ _).trans (List.length_range _)
  refine ⟨hlen, ?_, ?_⟩
  · intro hne i hi
    rw [hlen hne] at hi
    obtain ⟨h5, h6, hN⟩ :=
      resample_floor_lt input.length (toSr / fromSr) hr i hi
    have hfl : (⌊(i : ℚ) / (toSr / fromSr)⌋).toNat < input.length := by
      omega
    have hcl : (min (⌊(i : ℚ) / (toSr / fromSr)⌋ + 1)
        ((input.length : ℤ) - 1)).toNat < input.length := by omega
    refine ⟨hfl, hcl, ?_⟩
    have hi' : i < (resample input fromSr toSr).length := by
      rw [hlen hne]; exact hi
    rw [List.getD_eq_getElem _ _ hi']
    simp only [resample, if_neg hne, List.getElem_map, List.getElem_range,
      List.get_eq_getElem]
    rw [List.getD_eq_getElem _ _ hfl, List.getD_eq_getElem _ _ hcl]
  · intro rate
    rw [resample, if_pos rfl]

/-- Witness for C7: resampling the two-sample window `[1, 3]` from rate 2
to rate 3 yields `round(2 · 3/2) = 3` samples. -/
theorem resample_length_witness :
    (resample [1, 3] 2 3).length =
      (jsRound ((([1, 3] : List ℚ).length : ℚ) * (3 / 2))).toNat :=
  (resample_length_and_blend [1, 3] 2 3 (by norm_num) (by norm_num)).1
    (by norm_num)

lemma length_writeString (buffer : List WavByte) (offset : ℕ) (s : String) :
    (writeString buffer offset s).length = buffer.length := by
  unfold writeString
  generalize s.toList.enum = l
  induction l generalizing buffer with
  | nil => rfl
  | cons p l ih => rw [List.foldl_cons, ih, List.length_set]

lemma length_setUint32LE (buffer : List WavByte) (offset n : ℕ) :
    (setUint32LE buffer offset n).length = buffer.length := by
  simp [setUint32LE]

lemma length_setUint16LE (buffer : List WavByte) (offset n : ℕ) :
    (setUint16LE buffer offset n).length = buffer.length := by
  simp [setUint16LE]

lemma length_setFloat32LE (buffer : List WavByte) (offset : ℕ) (v : ℚ) :
    (setFloat32LE buffer offset v).length = buffer.length := by
  simp [setFloat32LE]

lemma length_foldl_setFloat32 (l : List (ℕ × ℚ)) (buffer : List WavByte) :
    (l.foldl (fun buf p => setFloat32LE buf (44 + 4 * p.1) p.2)
      buffer).length = buffer.length := by
  induction l generalizing buffer with
  | nil => rfl
  | cons p l ih => rw [List.foldl_cons, ih, length_setFloat32LE]

/-- Claim C10: the `approxBytes` field of the metadata for a window of
`sampleCount` samples equals `44 + 4·sampleCount`, which is exactly the
byte length of the WAV buffer `encodeWavFloat32Mono` produces for that
window. -/
theorem approxBytes_matches_wav_byte_length (samples : List ℚ)
    (sampleRate seq : ℕ) (signature : ChunkSignature)
    (duplicate sent : Bool) :
    (buildMeta seq samples.length signature duplicate sent).approxBytes =
      (encodeWavFloat32Mono samples sampleRate).length ∧
    (encodeWavFloat32Mono samples sampleRate).length =
      44 + 4 * samples.length := by
  have h : (encodeWavFloat32Mono samples sampleRate).length =
      44 + samples.length * 4 := by
    unfold encodeWavFloat32Mono
    rw [length_foldl_setFloat32, length_setUint32LE, length_writeString,
        length_setUint16LE, length_setUint16LE, length_setUint32LE,
        length_setUint32LE, length_setUint16LE, length_setUint16LE,
        length_setUint32LE, length_writeString, length_writeString,
        length_setUint32LE, length_writeString, List.length_replicate]
  refine ⟨?_, by omega⟩
  rw [h]
  rfl

/-- Claim C8: when voice is disabled the fused vector is exactly the face
vector and the voice EMA state is untouched; when the VAD reading is
below the gating threshold the same holds (given the face vector sums to
1, which every smoothed face vector does); otherwise the voice EMA
advances and the fused vector is the `λ`-blend of face and smoothed
voice, renormalized, with the uniform fallback when the blend sum is not
positive. -/
theorem fuseCycle_gating (face smoothedSerState : FerVector)
    (res : SerResponse) (lambda minVad : ℚ) :
    fuseCycle false face smoothedSerState res lambda minVad =
        (face, smoothedSerState) ∧
    (res.vad.getD 0 < minVad →
      face.pos + face.neu + face.fru = 1 →
      fuseCycle true face smoothedSerState res lambda minVad =
        (face, smoothedSerState)) ∧
    (minVad ≤ res.vad.getD 0 → 0 ≤ lambda → lambda ≤ 1 →
      (fuseCycle true face smoothedSerState res lambda minVad).2 =
          smoothSer smoothedSerState ⟨res.pos, res.neu, res.fru⟩ (7/10) ∧
      (fuseCycle true face smoothedSerState res lambda minVad).1 =
        (if 0 < (lambda * face.pos + (1 - lambda) *
              (smoothSer smoothedSerState ⟨res.pos, res.neu, res.fru⟩
                (7/10)).pos) +
            (lambda * face.neu + (1 - lambda) *
              (smoothSer smoothedSerState ⟨res.pos, res.neu, res.fru⟩
                (7/10)).neu) +
            (lambda * face.fru + (1 - lambda) *
              (smoothSer smoothedSerState ⟨res.pos, res.neu, res.fru⟩
                (7/10)).fru) then
          (⟨(lambda * face.pos + (1 - lambda) *
                (smoothSer smoothedSerState ⟨res.pos, res.neu, res.fru⟩
                  (7/10)).pos) /
              ((lambda * face.pos + (1 - lambda) *
                (smoothSer smoothedSerState ⟨res.pos, res.neu, res.fru⟩
                  (7/10)).pos) +
               (lambda * face.neu + (1 - lambda) *
                (smoothSer smoothedSerState ⟨res.pos, res.neu, res.fru⟩
                  (7/10)).neu) +
               (lambda * face.fru + (1 - lambda) *
                (smoothSer smoothedSerState ⟨res.pos, res.neu, res.fru⟩
                  (7/10)).fru)),
            (lambda * face.neu + (1 - lambda) *
                (smoothSer smoothedSerState ⟨res.pos, res.neu, res.fru⟩
                  (7/10)).neu) /
              ((lambda * face.pos + (1 - lambda) *
                (smoothSer smoothedSerState ⟨res.pos, res.neu, res.fru⟩
                  (7/10)).pos) +
               (lambda * face.neu + (1 - lambda) *
                (smoothSer smoothedSerState ⟨res.pos, res.neu, res.fru⟩
                  (7/10)).neu) +
               (lambda * face.fru + (1 - lambda) *
                (smoothSer smoothedSerState ⟨res.pos, res.neu, res.fru⟩
                  (7/10)).fru)),
            (lambda * face.fru + (1 - lambda) *
                (smoothSer smoothedSerState ⟨res.pos, res.neu, res.fru⟩
                  (7/10)).fru) /
              ((lambda * face.pos + (1 - lambda) *
                (smoothSer smoothedSerState ⟨res.pos, res.neu, res.fru⟩
                  (7/10)).pos) +
               (lambda * face.neu + (1 - lambda) *
                (smoothSer smoothedSerState ⟨res.pos, res.neu, res.fru⟩
                  (7/10)).neu) +
               (lambda * face.fru + (1 - lambda) *
                (smoothSer smoothedSerState ⟨res.pos, res.neu, res.fru⟩
                  (7/10)).fru))⟩ : FerVector)
        else ⟨1/3, 1/3, 1/3⟩)) := by
  have hclamp : ∀ h0 : 0 ≤ lambda, lambda ≤ 1 →
      max 0 (min 1 lambda) = lambda := by
    intro h0 h1
    rw [min_eq_right h1, max_eq_right h0]
  refine ⟨rfl, ?_, ?_⟩
  · intro hvad hsum
    have hv : ¬ (minVad ≤ res.vad.getD 0) := not_le.mpr hvad
    obtain ⟨fp, fn, ff⟩ := face
    simp only [fuseCycle, Bool.not_true, if_false, hv, if_neg hv, ite_false]
    simp only at hsum
    rw [hsum]
    norm_num
  · intro hvad h0 h1
    simp only [fuseCycle, Bool.not_true, if_false, hvad, if_pos hvad,
      ite_true, hclamp h0 h1]
    exact ⟨rfl, rfl⟩

/-- Witness for C8: the spec's gating scenario, VAD reading `0.1` against
threshold `0.2` — fused equals face and the voice EMA state is
unchanged. -/
theorem fuseCycle_gating_witness :
    (some (1/10 : ℚ)).getD 0 < (2/10 : ℚ) ∧
    fuseCycle true ⟨1/2, 1/4, 1/4⟩ ⟨2/5, 2/5, 1/5⟩
        ⟨9/10, 1/20, 1/20, some (1/10)⟩ (3/5) (2/10) =
      (⟨1/2, 1/4, 1/4⟩, ⟨2/5, 2/5, 1/5⟩) :=
  ⟨by norm_num,
   (fuseCycle_gating ⟨1/2, 1/4, 1/4⟩ ⟨2/5, 2/5, 1/5⟩
       ⟨9/10, 1/20, 1/20, some (1/10)⟩ (3/5) (2/10)).2.1
     (by norm_num) (by norm_num)⟩

/-- Claim C5: a completed window whose computed signature has RMS, peak
and mean all exactly zero is marked `duplicate = true, sent = false`, is
never dispatched to `onChunk`, still updates the last-signature
reference to this chunk's signature, and still produces the metadata
callback record for the window. -/
theorem silent_chunk_never_dispatched (duplicateThreshold : ℚ)
    (st : MicState) (signature : ChunkSignature) (sampleCount : ℕ)
    (h : signature.rms = 0 ∧ signature.peak = 0 ∧ signature.mean = 0) :
    (processChunk duplicateThreshold st signature sampleCount).2.meta.duplicate
        = true ∧
    (processChunk duplicateThreshold st signature sampleCount).2.meta.sent
        = false ∧
    (processChunk duplicateThreshold st signature sampleCount).2.dispatched
        = false ∧
    (processChunk duplicateThreshold st signature sampleCount).1.lastSignature
        = some signature ∧
    (processChunk duplicateThreshold st signature sampleCount).2.metaEmitted
        = true := by
  simp only [processChunk]
  rw [if_pos h]
  simp [buildMeta]

/-- Witness for C5 at the all-zero signature with a loud previous chunk
in the state. -/
theorem silent_chunk_never_dispatched_witness :
    ((0 : ℚ) = 0 ∧ (0 : ℚ) = 0 ∧ (0 : ℚ) = 0) ∧
    ((processChunk (1/10000) ⟨3, some ⟨1/2, 1, 0⟩, 2⟩ ⟨0, 0, 0⟩
        16000).2.meta.duplicate = true ∧
      (processChunk (1/10000) ⟨3, some ⟨1/2, 1, 0⟩, 2⟩ ⟨0, 0, 0⟩
        16000).2.meta.sent = false ∧
      (processChunk (1/10000) ⟨3, some ⟨1/2, 1, 0⟩, 2⟩ ⟨0, 0, 0⟩
        16000).2.dispatched = false ∧
      (processChunk (1/10000) ⟨3, some ⟨1/2, 1, 0⟩, 2⟩ ⟨0, 0, 0⟩
        16000).1.lastSignature = some ⟨0, 0, 0⟩ ∧
      (processChunk (1/10000) ⟨3, some ⟨1/2, 1, 0⟩, 2⟩ ⟨0, 0, 0⟩
        16000).2.metaEmitted = true) :=
  ⟨⟨rfl, rfl, rfl⟩,
   silent_chunk_never_dispatched (1/10000) ⟨3, some ⟨1/2, 1, 0⟩, 2⟩
     ⟨0, 0, 0⟩ 16000 ⟨rfl, rfl, rfl⟩⟩

/-- Claim C6: in the chunk-dedup state machine, (a) a chunk whose
signature differs from the previous one by at most the threshold in all
three components, when not both chunks are quiet (RMS < 0.01) and fewer
than 5 consecutive duplicates have been skipped, is marked duplicate and
skipped with the last-signature still updated; (b) a (non-silent)
quiet+quiet pair is never marked duplicate; (c) once 5 consecutive
duplicate skips have accumulated, the next (non-silent) chunk is
force-dispatched even if its signature is identical, and the
consecutive-duplicate counter resets to 0. -/
theorem dedup_machine_rules (duplicateThreshold : ℚ) :
    (∀ (st : MicState) (signature lastSig : ChunkSignature)
        (sampleCount : ℕ),
        st.lastSignature = some lastSig →
        |signature.rms - lastSig.rms| ≤ duplicateThreshold →
        |signature.peak - lastSig.peak| ≤ duplicateThreshold →
        |signature.mean - lastSig.mean| ≤ duplicateThreshold →
        ¬(signature.rms < 1/100 ∧ lastSig.rms < 1/100) →
        st.consecutiveDuplicates < maxConsecutiveDuplicates →
        (processChunk duplicateThreshold st signature
            sampleCount).2.meta.duplicate = true ∧
        (processChunk duplicateThreshold st signature
            sampleCount).2.meta.sent = false ∧
        (processChunk duplicateThreshold st signature
            sampleCount).2.dispatched = false ∧
        (processChunk duplicateThreshold st signature
            sampleCount).1.lastSignature = some signature) ∧
    (∀ (st : MicState) (signature lastSig : ChunkSignature)
        (sampleCount : ℕ),
        st.lastSignature = some lastSig →
        signature.rms < 1/100 → lastSig.rms < 1/100 →
        ¬(signature.rms = 0 ∧ signature.peak = 0 ∧ signature.mean = 0) →
        (processChunk duplicateThreshold st signature
            sampleCount).2.meta.duplicate = false) ∧
    (∀ (st : MicState) (signature : ChunkSignature) (sampleCount : ℕ),
        maxConsecutiveDuplicates ≤ st.consecutiveDuplicates →
        ¬(signature.rms = 0 ∧ signature.peak = 0 ∧ signature.mean = 0) →
        (processChunk duplicateThreshold st signature
            sampleCount).2.dispatched = true ∧
        (processChunk duplicateThreshold st signature
            sampleCount).2.meta.sent = true ∧
        (processChunk duplicateThreshold st signature
            sampleCount).1.consecutiveDuplicates = 0) := by
  refine ⟨?_, ?_, ?_⟩
  · intro st signature lastSig sampleCount hlast hr hp hm hq hcd
    by_cases hsil : signature.rms = 0 ∧ signature.peak = 0 ∧
        signature.mean = 0
    · simp only [processChunk]
      rw [if_pos hsil]
      simp [buildMeta]
    · have hQ : ¬(signature.rms < (100:ℚ)⁻¹ ∧ lastSig.rms < (100:ℚ)⁻¹) := by
        intro hcontra
        exact hq ⟨by simpa [one_div] using hcontra.1,
                  by simpa [one_div] using hcontra.2⟩
      have hor : (100:ℚ)⁻¹ ≤ signature.rms ∨ (100:ℚ)⁻¹ ≤ lastSig.rms := by
        rcases not_and_or.mp hQ with h | h
        · exact Or.inl (not_lt.mp h)
        · exact Or.inr (not_lt.mp h)
      have hdup : isDuplicate st.lastSignature signature duplicateThreshold
          = true := by
        rw [hlast]
        simp [isDuplicate, hQ, hr, hp, hm, hor]
      have hf : decide (maxConsecutiveDuplicates ≤
          st.consecutiveDuplicates) = false := by
        simpa using Nat.not_le.mpr hcd
      simp only [processChunk]
      rw [if_neg hsil]
      simp [hdup, hf, buildMeta]
  · intro st signature lastSig sampleCount hlast hq1 hq2 hsil
    have hq1' : signature.rms < (100:ℚ)⁻¹ := by simpa [one_div] using hq1
    have hq2' : lastSig.rms < (100:ℚ)⁻¹ := by simpa [one_div] using hq2
    have hdup : isDuplicate st.lastSignature signature duplicateThreshold
        = false := by
      rw [hlast]
      simp [isDuplicate, hq1', hq2']
    simp only [processChunk]
    rw [if_neg hsil]
    simp [hdup, buildMeta]
  · intro st signature sampleCount hforce hsil
    have hf : decide (maxConsecutiveDuplicates ≤
        st.consecutiveDuplicates) = true := by simpa using hforce
    simp only [processChunk]
    rw [if_neg hsil]
    simp [hf, buildMeta]

/-- Witness for C6, part (c): with 5 accumulated duplicate skips and a
chunk whose signature is identical to the previous one, the chunk is
force-dispatched and the counter resets. -/
theorem dedup_machine_rules_witness :
    maxConsecutiveDuplicates ≤ 5 ∧
    ¬((1/2 : ℚ) = 0 ∧ (1/2 : ℚ) = 0 ∧ (0 : ℚ) = 0) ∧
    ((processChunk (1/10000) ⟨6, some ⟨1/2, 1/2, 0⟩, 5⟩ ⟨1/2, 1/2, 0⟩
        16000).2.dispatched = true ∧
      (processChunk (1/10000) ⟨6, some ⟨1/2, 1/2, 0⟩, 5⟩ ⟨1/2, 1/2, 0⟩
        16000).2.meta.sent = true ∧
      (processChunk (1/10000) ⟨6, some ⟨1/2, 1/2, 0⟩, 5⟩ ⟨1/2, 1/2, 0⟩
        16000).1.consecutiveDuplicates = 0) :=
  ⟨by norm_num [maxConsecutiveDuplicates],
   by norm_num,
   (dedup_machine_rules (1/10000)).2.2 ⟨6, some ⟨1/2, 1/2, 0⟩, 5⟩
     ⟨1/2, 1/2, 0⟩ 16000 (by norm_num [maxConsecutiveDuplicates])
     (by norm_num)⟩

namespace LinUCB

lemma lookupContext_append_self (contexts : List (String × Context))
    (armId : String) (c : Context)
    (h : lookupContext contexts armId = none) :
    lookupContext (contexts ++ [(armId, c)]) armId = some c := by
  induction contexts with
  | nil => simp [lookupContext]
  | cons p l ih =>
    rcases hb : (p.1 == armId) with _ | _
    · unfold lookupContext at h ⊢
      rw [List.find?_cons_of_neg _ (by simp [hb])] at h
      rw [List.cons_append, List.find?_cons_of_neg _ (by simp [hb])]
      exact ih h
    · unfold lookupContext at h
      rw [List.find?_cons_of_pos _ (by simp [hb])] at h
      simp at h

/-- Claim C1 (counterexample to the claim as stated): at first reference
the created arm state's matrix `A` (for `d = 2`) is the all-zero matrix,
which is not a scaled identity for any non-zero scale. -/
theorem getOrCreateContext_A_not_scaled_identity :
    (getOrCreateContext ⟨2, 1, []⟩ "arm0").1.A = [[0, 0], [0, 0]] ∧
    ¬ ∃ c : ℚ, c ≠ 0 ∧
      (getOrCreateContext ⟨2, 1, []⟩ "arm0").1.A = scaledIdentity 2 c := by
  have hA : (getOrCreateContext ⟨2, 1, []⟩ "arm0").1.A = [[0, 0], [0, 0]] := by
    simp [getOrCreateContext, lookupContext, List.replicate]
  refine ⟨hA, ?_⟩
  rintro ⟨c, hc, h⟩
  rw [hA] at h
  have hid : scaledIdentity 2 c = [[c, 0], [0, c]] := by
    simp [scaledIdentity, List.range_succ]
  rw [hid] at h
  simp at h
  exact hc h.symm

/-- Claim C1 (amended): on first reference to an arm id,
`getOrCreateContext` creates that arm's state with the `d×d` matrix `A`
initialized to the all-zero matrix (`d` rows of `d` zeros — not a scaled
identity) and the `d`-length vector `b` initialized to all zeros, and
stores it in the arm map. -/
theorem getOrCreateContext_first_reference (s : State) (armId : String)
    (h : lookupContext s.contexts armId = none) :
    (getOrCreateContext s armId).1.A =
        List.replicate s.d (List.replicate s.d 0) ∧
    (getOrCreateContext s armId).1.b = List.replicate s.d 0 ∧
    (getOrCreateContext s armId).1.A.length = s.d ∧
    (∀ row ∈ (getOrCreateContext s armId).1.A,
      row.length = s.d ∧ ∀ entry ∈ row, entry = 0) ∧
    (∀ entry ∈ (getOrCreateContext s armId).1.b, entry = 0) ∧
    lookupContext (getOrCreateContext s armId).2.contexts armId =
      some (getOrCreateContext s armId).1 := by
  have hmatch : getOrCreateContext s armId =
      (⟨List.replicate s.d (List.replicate s.d 0),
        List.replicate s.d 0, s.alpha⟩,
       { s with contexts := s.contexts ++
          [(armId, ⟨List.replicate s.d (List.replicate s.d 0),
            List.replicate s.d 0, s.alpha⟩)] }) := by
    unfold getOrCreateContext
    rw [h]
  rw [hmatch]
  refine ⟨rfl, rfl, List.length_replicate _ _, ?_, ?_, ?_⟩
  · intro row hrow
    rw [List.eq_of_mem_replicate hrow]
    exact ⟨List.length_replicate _ _, fun entry he =>
      List.eq_of_mem_replicate he⟩
  · intro entry he
    exact List.eq_of_mem_replicate he
  · exact lookupContext_append_self s.contexts armId _ h

/-- Witness for the amended C1 at the empty bandit state with `d = 2`. -/
theorem getOrCreateContext_first_reference_witness :
    lookupContext ([] : List (String × Context)) "arm0" = none ∧
    (getOrCreateContext ⟨2, 1, []⟩ "arm0").1.A =
        List.replicate 2 (List.replicate 2 0) ∧
    (getOrCreateContext ⟨2, 1, []⟩ "arm0").1.b = List.replicate 2 0 :=
  ⟨rfl,
   (getOrCreateContext_first_reference ⟨2, 1, []⟩ "arm0" rfl).1,
   (getOrCreateContext_first_reference ⟨2, 1, []⟩ "arm0" rfl).2.1⟩

lemma reachable_sym_psd (A : Mat2) (hA : ReachableA A) :
    A.b = A.c ∧ ∀ v : Vec2, 0 ≤ quadraticForm A v := by
  induction hA with
  | creation =>
    exact ⟨rfl, fun v => by
      simp [quadraticForm, dotProduct, matrixVectorMultiply]⟩
  | step A x hA ih =>
    obtain ⟨hsym, hpsd⟩ := ih
    constructor
    · show A.b + x.x * x.y = A.c + x.y * x.x
      rw [hsym]; ring
    · intro v
      have hq : quadraticForm ⟨A.a + x.x * x.x, A.b + x.x * x.y,
          A.c + x.y * x.x, A.d + x.y * x.y⟩ v =
          quadraticForm A v + (x.x * v.x + x.y * v.y)^2 := by
        simp only [quadraticForm, dotProduct, matrixVectorMultiply]
        ring
      rw [hq]
      exact add_nonneg (hpsd v) (sq_nonneg _)

lemma psd_props (A : Mat2) (hsym : A.b = A.c)
    (hpsd : ∀ v : Vec2, 0 ≤ quadraticForm A v) :
    0 ≤ A.a ∧ 0 ≤ A.d ∧ 0 ≤ det2 A := by
  have ha : 0 ≤ A.a := by
    have := hpsd ⟨1, 0⟩
    simpa [quadraticForm, dotProduct, matrixVectorMultiply] using this
  have hd : 0 ≤ A.d := by
    have := hpsd ⟨0, 1⟩
    simpa [quadraticForm, dotProduct, matrixVectorMultiply] using this
  refine ⟨ha, hd, ?_⟩
  rcases eq_or_lt_of_le ha with h0 | hpos
  · by_cases hb : A.b = 0
    · rw [det2, ← h0, ← hsym, hb]
      norm_num
    · exfalso
      have hv := hpsd ⟨-A.b * (A.d + 1), 2 * A.b^2⟩
      have hval : quadraticForm A ⟨-A.b * (A.d + 1), 2 * A.b^2⟩ =
          -4 * A.b^4 := by
        simp only [quadraticForm, dotProduct, matrixVectorMultiply]
        rw [← hsym, ← h0]
        ring
      rw [hval] at hv
      have hb4 : 0 < A.b^4 := by positivity
      linarith
  · have hv := hpsd ⟨A.b, -A.a⟩
    simp only [quadraticForm, dotProduct, matrixVectorMultiply] at hv
    rw [det2]
    nlinarith [hv, hpos, hsym]

lemma radicand_nonneg (A : Mat2) (hA : ReachableA A) (v : Vec2) :
    0 ≤ quadraticForm (inverse A) v := by
  obtain ⟨hsym, hpsd⟩ := reachable_sym_psd A hA
  obtain ⟨ha, hd, hdet⟩ := psd_props A hsym hpsd
  unfold inverse
  by_cases h : |det2 A| < 1/10000000000
  · rw [if_pos h]
    simp only [quadraticForm, dotProduct, matrixVectorMultiply]
    nlinarith [sq_nonneg v.x, sq_nonneg v.y]
  · rw [if_neg h]
    push_neg at h
    have hdet0 : det2 A ≠ 0 := by
      intro h0
      rw [h0] at h
      simp at h
      norm_num at h
    have hdetpos : 0 < det2 A := lt_of_le_of_ne hdet (Ne.symm hdet0)
    have hdpos : 0 < A.d := by
      rcases eq_or_lt_of_le hd with h0 | hgt
      · exfalso
        have hdd : det2 A = A.a * A.d - A.b * A.c := rfl
        rw [hdd, ← h0, ← hsym] at hdetpos
        ring_nf at hdetpos
        nlinarith [sq_nonneg A.b, hdetpos]
      · exact hgt
    have hform : quadraticForm ⟨A.d / det2 A, -A.b / det2 A,
        -A.c / det2 A, A.a / det2 A⟩ v =
        (A.d * v.x^2 - (A.b + A.c) * v.x * v.y + A.a * v.y^2) / det2 A := by
      simp only [quadraticForm, dotProduct, matrixVectorMultiply]
      field_simp
      ring
    rw [hform]
    apply div_nonneg _ hdetpos.le
    have hid : A.d * (A.d * v.x^2 - (A.b + A.c) * v.x * v.y +
        A.a * v.y^2) =
        (A.d * v.x - A.b * v.y)^2 + det2 A * v.y^2 := by
      rw [det2, ← hsym]
      ring
    have key : 0 ≤ A.d * (A.d * v.x^2 - (A.b + A.c) * v.x * v.y +
        A.a * v.y^2) := by
      rw [hid]
      exact add_nonneg (sq_nonneg _) (mul_nonneg hdetpos.le (sq_nonneg _))
    have h2 := div_nonneg key hdpos.le
    rwa [mul_div_cancel_left₀ _ (ne_of_gt hdpos)] at h2

end LinUCB

/-- Claim C9: the bandit's matrix inversion substitutes the identity
matrix whenever the determinant is within the `1e-10` tolerance of 0,
and consequently for every reachable arm-state matrix the radicand
handed to `Math.sqrt` in `selectArm` is non-negative, so the score is a
well-defined finite number (never `NaN`) for finite inputs. -/
theorem inverse_singular_identity_score_defined :
    (∀ m : LinUCB.Mat2, |LinUCB.det2 m| < 1/10000000000 →
      LinUCB.inverse m = ⟨1, 0, 0, 1⟩) ∧
    (∀ (A : LinUCB.Mat2) (b features : LinUCB.Vec2) (alpha : ℚ),
      LinUCB.ReachableA A →
      0 ≤ (LinUCB.selectArmParts ⟨A, b, alpha⟩ features).2) := by
  constructor
  · intro m h
    rw [LinUCB.inverse, if_pos h]
  · intro A b features alpha hA
    show 0 ≤ LinUCB.quadraticForm (LinUCB.inverse A) features
    exact LinUCB.radicand_nonneg A hA features

/-- Witness for C9 at the freshly created (all-zero, hence singular)
arm matrix and feature vector `(3, 4)`. -/
theorem inverse_singular_identity_score_defined_witness :
    |LinUCB.det2 ⟨0, 0, 0, 0⟩| < 1/10000000000 ∧
    LinUCB.inverse ⟨0, 0, 0, 0⟩ = ⟨1, 0, 0, 1⟩ ∧
    0 ≤ (LinUCB.selectArmParts ⟨⟨0, 0, 0, 0⟩, ⟨0, 0⟩, 1⟩ ⟨3, 4⟩).2 :=
  ⟨by norm_num [LinUCB.det2],
   inverse_singular_identity_score_defined.1 ⟨0, 0, 0, 0⟩
     (by norm_num [LinUCB.det2]),
   inverse_singular_identity_score_defined.2 ⟨0, 0, 0, 0⟩ ⟨0, 0⟩ ⟨3, 4⟩ 1
     LinUCB.ReachableA.creation⟩

end EmotionTutor
